import Mathlib

/-!
# Verification of the calculator expression evaluator

Shallow embedding of `evaluateExpression` from `src/pages/misc/Calculator.tsx`
(tokenizer → constant/name normalization → shunting-yard → RPN evaluation),
together with a reference "conventional infix evaluation" grammar used to check
the parser against the specification.

Modelling conventions:
* JS strings are `List Char` (`Tok`); JS arrays used as stacks are Lean lists
  with the head as the stack top (`push x` = `x :: s`, `pop` = head/tail;
  popping an empty JS array yields `undefined`, which behaves as `NaN` in every
  numeric context of the evaluator, so an empty pop is modelled by `JsVal.nan`).
* JS numbers are modelled exactly: a finite value is an exact rational
  (IEEE-754 rounding is not modelled), plus `Infinity`, `-Infinity` and `NaN`
  sentinels.  Negative zero is not modelled (the evaluator never branches on it).
* The ambient JS `Math` library functions used by the evaluator
  (`Math.sin/cos/tan/sqrt/log/log10/pow`) are not part of the repository;
  the evaluator is parametrised over them (`MathLib`), and theorems assume
  only facts that hold of the real JS `Math` object (e.g. `Math.sqrt(16) = 4`).
* The tokenizer regex loop is modelled with explicit fuel equal to the input
  length; every scan step consumes at least one character, so this fuel is
  exact.
-/

namespace CalcSpec

/-- Tokens are character lists (the source works with JS strings). -/
abbrev Tok := List Char

/-- Character data of a string literal, for writing tokens. -/
def chars (s : String) : Tok := s.data

/-- The regex class `[0-9]` of `tokenRe`. -/
def isDigit (c : Char) : Bool := decide (48 ≤ c.toNat ∧ c.toNat ≤ 57)

/-- ASCII letters `[A-Za-z]`. -/
def isAsciiAlpha (c : Char) : Bool :=
  decide ((65 ≤ c.toNat ∧ c.toNat ≤ 90) ∨ (97 ≤ c.toNat ∧ c.toNat ≤ 122))

/-- The regex class `[A-Za-zπ]` of `tokenRe` (note: it contains `π` but not `√`). -/
def isAlphaPi (c : Char) : Bool := isAsciiAlpha c || decide (c = 'π')

/-- The regex class `[()+\-*/^%!]` of `tokenRe`. -/
def isSymChar (c : Char) : Bool :=
  decide (c ∈ ['(', ')', '+', '-', '*', '/', '^', '%', '!'])

/--
One pass of the tokenizer loop
`const tokenRe = /([0-9]+\.?[0-9]*|\.?[0-9]+)|([A-Za-zπ]+)|([()+\-*/^%!])/g`:
at each position the earliest-starting match is taken (characters matching no
class are skipped), with the alternatives tried left to right and each greedy.
`fuel` bounds the number of scan steps; every step consumes at least one
character, so `fuel = input length` makes the model exact (`tokenize`).
-/
def tokenizeF : ℕ → List Char → List Tok
  | 0, _ => []
  | _, [] => []
  | fuel + 1, c :: cs =>
    if isDigit c then
      -- alternative 1, branch `[0-9]+\.?[0-9]*`
      match cs.dropWhile isDigit with
      | '.' :: t =>
          (c :: (cs.takeWhile isDigit ++ '.' :: t.takeWhile isDigit)) ::
            tokenizeF fuel (t.dropWhile isDigit)
      | _ => (c :: cs.takeWhile isDigit) :: tokenizeF fuel (cs.dropWhile isDigit)
    else if c = '.' then
      -- alternative 1, branch `\.?[0-9]+`: only matches if a digit follows;
      -- otherwise the scan moves past the dot (no token)
      if cs.head?.any isDigit then
        ('.' :: cs.takeWhile isDigit) :: tokenizeF fuel (cs.dropWhile isDigit)
      else tokenizeF fuel cs
    else if isAlphaPi c then
      (c :: cs.takeWhile isAlphaPi) :: tokenizeF fuel (cs.dropWhile isAlphaPi)
    else if isSymChar c then [c] :: tokenizeF fuel cs
    else tokenizeF fuel cs

/-- The tokenizer: `while ((m = tokenRe.exec(input)) !== null) tokens.push(...)`. -/
def tokenize (l : List Char) : List Tok := tokenizeF l.length l

/-- The evaluator's `isNumber` test `/^[0-9]+\.?[0-9]*$/`. -/
def isNumber (t : Tok) : Bool :=
  !(t.takeWhile isDigit).isEmpty &&
    (match t.dropWhile isDigit with
     | [] => true
     | c :: u => decide (c = '.') && u.all isDigit)

/-- Numeric value of a digit string (most significant first). -/
def digitsToNat (l : List Char) : ℕ := l.foldl (fun n c => 10 * n + (c.toNat - 48)) 0

/--
Model of JS `parseFloat` on the evaluator's numeric tokens
(`[0-9]+\.?[0-9]*`): the exact decimal value.  The evaluator only applies
`parseFloat` to tokens passing `isNumber`.
-/
def parseFloatTok (t : Tok) : ℚ :=
  match t.dropWhile isDigit with
  | '.' :: u =>
      (digitsToNat (t.takeWhile isDigit) : ℚ) +
        (digitsToNat (u.takeWhile isDigit) : ℚ) / (10 : ℚ) ^ (u.takeWhile isDigit).length
  | _ => (digitsToNat (t.takeWhile isDigit) : ℚ)

/-- `String(Math.PI)` — the decimal rendering of the JS double for π. -/
def piTok : Tok := chars "3.141592653589793"

/-- `String(Math.E)` — the decimal rendering of the JS double for e. -/
def eTok : Tok := chars "2.718281828459045"

/-- JS `toLowerCase` on the ASCII letters (the only case the evaluator exercises,
because the lowercasing is guarded by `/^[A-Za-z]+$/`). -/
def toLowerChar (c : Char) : Char :=
  if 65 ≤ c.toNat ∧ c.toNat ≤ 90 then Char.ofNat (c.toNat + 32) else c

/--
The normalization loop over tokens: constants `π`/`pi`/`PI` and `e` are replaced
by the decimal strings of `Math.PI` / `Math.E`, then any all-ASCII-letter token
is lowercased — all within the same iteration, in this order.
-/
def normTok (t : Tok) : Tok :=
  let t1 := if t = chars "π" ∨ t = chars "pi" ∨ t = chars "PI" then piTok else t
  let t2 := if t1 = chars "e" then eTok else t1
  if !t2.isEmpty && t2.all isAsciiAlpha then t2.map toLowerChar else t2

/-- JS number values, modelled exactly (finite = exact rational; no `-0`). -/
inductive JsVal where
  | fin (q : ℚ)
  | inf
  | ninf
  | nan
deriving DecidableEq

/-- Decidable equality of evaluator results. -/
instance {ε α : Type} [DecidableEq ε] [DecidableEq α] : DecidableEq (Except ε α)
  | .ok a, .ok b => decidable_of_iff (a = b) (by simp)
  | .error a, .error b => decidable_of_iff (a = b) (by simp)
  | .ok _, .error _ => .isFalse (by simp)
  | .error _, .ok _ => .isFalse (by simp)

namespace JsVal

/-- JS `a + b` (addition on doubles, idealized to exact rationals). -/
def jsAdd : JsVal → JsVal → JsVal
  | nan, _ => nan
  | _, nan => nan
  | inf, ninf => nan
  | ninf, inf => nan
  | inf, _ => inf
  | _, inf => inf
  | ninf, _ => ninf
  | _, ninf => ninf
  | fin a, fin b => fin (a + b)

/-- JS `a - b`. -/
def jsSub : JsVal → JsVal → JsVal
  | nan, _ => nan
  | _, nan => nan
  | inf, inf => nan
  | ninf, ninf => nan
  | inf, _ => inf
  | ninf, _ => ninf
  | _, inf => ninf
  | _, ninf => inf
  | fin a, fin b => fin (a - b)

/-- JS `a * b`. -/
def jsMul : JsVal → JsVal → JsVal
  | nan, _ => nan
  | _, nan => nan
  | fin a, fin b => fin (a * b)
  | inf, inf => inf
  | inf, ninf => ninf
  | ninf, inf => ninf
  | ninf, ninf => inf
  | inf, fin b => if b = 0 then nan else if 0 < b then inf else ninf
  | fin a, inf => if a = 0 then nan else if 0 < a then inf else ninf
  | ninf, fin b => if b = 0 then nan else if 0 < b then ninf else inf
  | fin a, ninf => if a = 0 then nan else if 0 < a then ninf else inf

/-- JS `a / b` (division by zero gives a signed infinity; `0/0` is `NaN`;
`-0` is not modelled, a zero divisor counts as `+0`). -/
def jsDiv : JsVal → JsVal → JsVal
  | nan, _ => nan
  | _, nan => nan
  | inf, inf => nan
  | inf, ninf => nan
  | ninf, inf => nan
  | ninf, ninf => nan
  | inf, fin b => if 0 ≤ b then inf else ninf
  | ninf, fin b => if 0 ≤ b then ninf else inf
  | fin _, inf => fin 0
  | fin _, ninf => fin 0
  | fin a, fin b =>
      if b = 0 then (if a = 0 then nan else if 0 < a then inf else ninf)
      else fin (a / b)

/-- Truncation toward zero, as applied by JS `%`. -/
def truncQ (q : ℚ) : ℤ := if 0 ≤ q then q.floor else q.ceil

/-- JS `a % b` (floating-point remainder: `a - b * trunc(a / b)`). -/
def jsMod : JsVal → JsVal → JsVal
  | nan, _ => nan
  | _, nan => nan
  | inf, _ => nan
  | ninf, _ => nan
  | fin a, inf => fin a
  | fin a, ninf => fin a
  | fin a, fin b => if b = 0 then nan else fin (a - b * (truncQ (a / b) : ℚ))

end JsVal

/--
The ambient JS `Math` functions used by the evaluator.  These are platform
functions, not code of this repository; the evaluator is parametrised over
them and theorems only assume facts true of the real JS `Math` object.
`ln` is `Math.log`, `log10` is `Math.log10` (the evaluator's `Math.log10`
feature-test is modelled as the function being present).
-/
structure MathLib where
  sin : JsVal → JsVal
  cos : JsVal → JsVal
  tan : JsVal → JsVal
  sqrt : JsVal → JsVal
  ln : JsVal → JsVal
  log10 : JsVal → JsVal
  pow : JsVal → JsVal → JsVal

/-- The loop `for (let i = 2; i <= m; i++) r *= i` of `factorialFn`, starting
from `r = 1`: the product `2 · 3 · … · m`. -/
def factLoop : ℕ → ℕ
  | 0 => 1
  | 1 => 1
  | n + 2 => factLoop (n + 1) * (n + 2)

/--
`factorialFn` from the source: `n < 0 || n > 170` gives `Infinity`; `n === 0`
gives `1`; otherwise the loop up to `Math.floor(n)`.  On `NaN` all comparisons
are false and the loop does not run, so the result is `1`; this is also the
behaviour on an `undefined` operand (an underflowed pop).
-/
def factorialFn : JsVal → JsVal
  | .fin q =>
      if q < 0 ∨ 170 < q then .inf
      else if q = 0 then .fin 1
      else .fin (factLoop q.floor.toNat)
  | .inf => .inf
  | .ninf => .inf
  | .nan => .fin 1

/--
Model of JS `Number(string)` on token strings, used by the evaluator's
final fallback: optional sign, then either `Infinity` or a decimal literal
(digits, optional fraction, optional exponent).  `none` models a `NaN` result.
The empty string gives `0`; whitespace trimming and hex/octal/binary literals
are omitted because no token can contain whitespace or form such a literal.
-/
def jsNumber (t : Tok) : Option JsVal :=
  match t with
  | [] => some (.fin 0)
  | _ =>
    let neg : Bool := t.head? = some '-'
    let s1 := if t.head? = some '-' ∨ t.head? = some '+' then t.tail else t
    if s1 = chars "Infinity" then some (if neg then .ninf else .inf)
    else
      let as := s1.takeWhile isDigit
      let r1 := s1.dropWhile isDigit
      let fr := match r1 with | '.' :: u => u.takeWhile isDigit | _ => []
      let r2 := match r1 with | '.' :: u => u.dropWhile isDigit | _ => r1
      if as.isEmpty && fr.isEmpty then none
      else
        let mant : ℚ := (digitsToNat as : ℚ) + (digitsToNat fr : ℚ) / (10 : ℚ) ^ fr.length
        let signed : ℚ := if neg then -mant else mant
        match r2 with
        | [] => some (.fin signed)
        | c :: r3 =>
          if c = 'e' ∨ c = 'E' then
            let eneg : Bool := r3.head? = some '-'
            let r4 := if r3.head? = some '-' ∨ r3.head? = some '+' then r3.tail else r3
            if r4.isEmpty || !r4.all isDigit then none
            else
              some (.fin (if eneg then signed / (10 : ℚ) ^ digitsToNat r4
                          else signed * (10 : ℚ) ^ digitsToNat r4))
          else none

/-- `precedence[t] || 0`: the precedence table, defaulting to `0` for
anything that is not one of the six binary operators. -/
def precD (t : Tok) : ℕ :=
  if t = chars "+" ∨ t = chars "-" then 1
  else if t = chars "*" ∨ t = chars "/" ∨ t = chars "%" then 2
  else if t = chars "^" then 3
  else 0

/-- `rightAssoc[t]`: true exactly for `^`. -/
def rightAssoc (t : Tok) : Bool := decide (t = chars "^")

/-- `isFunctionName` from the source (note: no `√`). -/
def isFunctionName (t : Tok) : Bool :=
  decide (t = chars "sin" ∨ t = chars "cos" ∨ t = chars "tan" ∨
          t = chars "sqrt" ∨ t = chars "log" ∨ t = chars "ln")

/-- The operator test `/^[+\-*/^%]$/`. -/
def isOpTok (t : Tok) : Bool :=
  decide (t = chars "+" ∨ t = chars "-" ∨ t = chars "*" ∨
          t = chars "/" ∨ t = chars "^" ∨ t = chars "%")

/-- The binary-operator pop condition of the shunting-yard loop:
`top ≠ '(' && ((rightAssoc[t] && prec t < prec top) || (!rightAssoc[t] && prec t ≤ prec top))`. -/
def popCond (t h : Tok) : Bool :=
  decide (h ≠ chars "(") &&
    ((rightAssoc t && decide (precD t < precD h)) ||
     (!rightAssoc t && decide (precD t ≤ precD h)))

/-- `while (ops.length && ops[top] !== '(') output.push(ops.pop())`. -/
def popParen : List Tok → List Tok → List Tok × List Tok
  | out, [] => (out, [])
  | out, h :: rest =>
      if h = chars "(" then (out, h :: rest) else popParen (out ++ [h]) rest

/-- The operator-case pop loop. -/
def popOps (t : Tok) : List Tok → List Tok → List Tok × List Tok
  | out, [] => (out, [])
  | out, h :: rest =>
      if popCond t h then popOps t (out ++ [h]) rest else (out, h :: rest)

/-- The `)` case: pop to the `(`, discard it (`ops.pop()` on an empty stack is
a no-op), then pop a function name if one is on top. -/
def closeStep (out ops : List Tok) : List Tok × List Tok :=
  let o1 := (popParen out ops).1
  match (popParen out ops).2.tail with
  | f :: r => if isFunctionName f then (o1 ++ [f], r) else (o1, f :: r)
  | [] => (o1, [])

/--
The shunting-yard loop over the token list, carried out on `(output, ops)`;
returns the state before the final flush.  Branch order follows the source:
number, function name, `,`, `(`, `)`, `!`, binary operator, unknown-token
fallback (`output.push(t)`).
-/
def shuntState : List Tok → List Tok → List Tok → List Tok × List Tok
  | [], out, ops => (out, ops)
  | t :: ts, out, ops =>
    if isNumber t then shuntState ts (out ++ [t]) ops
    else if isFunctionName t then shuntState ts out (t :: ops)
    else if t = chars "," then
      shuntState ts (popParen out ops).1 (popParen out ops).2
    else if t = chars "(" then shuntState ts out (t :: ops)
    else if t = chars ")" then
      shuntState ts (closeStep out ops).1 (closeStep out ops).2
    else if t = chars "!" then shuntState ts (out ++ [t]) ops
    else if isOpTok t then
      shuntState ts (popOps t out ops).1 (t :: (popOps t out ops).2)
    else shuntState ts (out ++ [t]) ops

/-- Shunting-yard: run the loop, then `while (ops.length) output.push(ops.pop())`
— the remaining stack is flushed top-first (including any stray `(`). -/
def shunt (toks : List Tok) : List Tok :=
  (shuntState toks [] []).1 ++ (shuntState toks [] []).2

/-- Pop two (`b` first, then `a`), push `f a b`; an underflowed pop is
`undefined`, which behaves as `NaN`. -/
def binApply (f : JsVal → JsVal → JsVal) (st : List JsVal) : List JsVal :=
  f (st.tail.head?.getD .nan) (st.head?.getD .nan) :: st.tail.tail

/-- Pop one, push `f a`. -/
def unApply (f : JsVal → JsVal) (st : List JsVal) : List JsVal :=
  f (st.head?.getD .nan) :: st.tail

/-- One step of the RPN evaluation loop, in the source's branch order. -/
def rpnStep (M : MathLib) (st : List JsVal) (t : Tok) : Except String (List JsVal) :=
  if isNumber t then .ok (.fin (parseFloatTok t) :: st)
  else if t = chars "+" then .ok (binApply JsVal.jsAdd st)
  else if t = chars "-" then .ok (binApply JsVal.jsSub st)
  else if t = chars "*" then .ok (binApply JsVal.jsMul st)
  else if t = chars "/" then .ok (binApply JsVal.jsDiv st)
  else if t = chars "%" then .ok (binApply JsVal.jsMod st)
  else if t = chars "^" then .ok (binApply M.pow st)
  else if t = chars "!" then .ok (unApply factorialFn st)
  else if t = chars "sin" then .ok (unApply M.sin st)
  else if t = chars "cos" then .ok (unApply M.cos st)
  else if t = chars "tan" then .ok (unApply M.tan st)
  else if t = chars "sqrt" then .ok (unApply M.sqrt st)
  else if t = chars "ln" then .ok (unApply M.ln st)
  else if t = chars "log" then .ok (unApply M.log10 st)
  else
    match jsNumber t with
    | some v => .ok (v :: st)
    | none => .error ("Invalid expression token: " ++ String.mk t)

/-- The RPN evaluation loop over the whole output queue. -/
def rpnFold (M : MathLib) (toks : List Tok) : Except String (List JsVal) :=
  toks.foldlM (rpnStep M) []

/-- Evaluate an RPN queue: run the loop, then
`if (stack.length !== 1) throw new Error('Invalid expression'); return stack[0]`. -/
def rpnEval (M : MathLib) (toks : List Tok) : Except String JsVal :=
  match rpnFold M toks with
  | .error e => .error e
  | .ok st => if st.length = 1 then .ok (st.head?.getD .nan) else .error "Invalid expression"

/-- The pipeline from a token list: normalization, shunting-yard, RPN evaluation. -/
def evalToks (M : MathLib) (toks : List Tok) : Except String JsVal :=
  rpnEval M (shunt (toks.map normTok))

/-- `evaluateExpression` from the source: tokenize, normalize, shunting-yard,
RPN evaluation.  `.error` models a thrown `Error` (with its message). -/
def evaluateExpression (M : MathLib) (input : String) : Except String JsVal :=
  evalToks M (tokenize input.data)

/-- The final operand stack reached by `evaluateExpression` (before the
`stack.length !== 1` check), when no error occurred earlier. -/
def finalStack (M : MathLib) (input : String) : Except String (List JsVal) :=
  rpnFold M (shunt ((tokenize input.data).map normTok))

/--
A stand-in instance for the platform `Math` object, used to produce concrete
witnesses.  It agrees with JS `Math` on every input at which a theorem below
assumes a fact about `Math` (e.g. `Math.sqrt(16) = 4`, `Math.pow(3,2) = 9`,
all of which are exact in IEEE-754); elsewhere it returns `NaN`.
-/
def refMath : MathLib where
  sin := fun v => if v = .fin 0 then .fin 0 else .nan
  cos := fun v => if v = .fin 0 then .fin 1 else .nan
  tan := fun v => if v = .fin 0 then .fin 0 else .nan
  sqrt := fun v => if v = .fin 16 then .fin 4 else .nan
  ln := fun v => if v = .fin 1 then .fin 0 else .nan
  log10 := fun v => if v = .fin 100 then .fin 2 else .nan
  pow := fun a b =>
    match a, b with
    | .fin x, .fin y =>
        if 0 ≤ y.num ∧ y.den = 1 then .fin (x ^ y.num.toNat) else .nan
    | _, _ => .nan

/-!
## Conventional infix evaluation

A reference description, modelled from the specification's words: the
conventional stratified grammar for the precedence table `+`,`-` = 1;
`*`,`/`,`%` = 2; `^` = 3, with `^` right-associative, the other operators
left-associative, and parentheses overriding precedence.  This is compared
with the shunting-yard parser of the source.
-/

/-- Expression trees over the evaluator's numeric literals and the six
binary-operator tokens. -/
inductive Expr where
  | num (s : Tok)
  | bin (o : Tok) (a b : Expr)

/-- The evaluator's meaning of a binary-operator token (the six RPN branches). -/
def binFn (M : MathLib) (o : Tok) : JsVal → JsVal → JsVal :=
  if o = chars "+" then JsVal.jsAdd
  else if o = chars "-" then JsVal.jsSub
  else if o = chars "*" then JsVal.jsMul
  else if o = chars "/" then JsVal.jsDiv
  else if o = chars "%" then JsVal.jsMod
  else if o = chars "^" then M.pow
  else fun _ _ => .nan

/-- Conventional recursive evaluation of an expression tree. -/
def evalE (M : MathLib) : Expr → JsVal
  | .num s => .fin (parseFloatTok s)
  | .bin o a b => binFn M o (evalE M a) (evalE M b)

/-- Postorder (RPN) serialization of an expression tree. -/
def rpn : Expr → List Tok
  | .num s => [s]
  | .bin o a b => rpn a ++ rpn b ++ [o]

/--
`ConvGram p ts e`: the token string `ts` is produced by level `p` of the
conventional stratified infix grammar

  `E1 → E1 (+|-) E2 | E2`;  `E2 → E2 (*|/|%) E3 | E3`;
  `E3 → E4 ^ E3 | E4`;      `E4 → number | ( E1 )`

and its conventional parse is the tree `e`.  `ConvGram 1 ts e` says: `ts` is a
well-formed expression built from non-negative numeric literals and the six
binary operators with balanced parentheses, and conventional infix evaluation
of `ts` under the spec's precedence table is `evalE _ e`.
-/
inductive ConvGram : ℕ → List Tok → Expr → Prop where
  | addOp {ts1 e1 ts2 e2 o} : ConvGram 1 ts1 e1 → ConvGram 2 ts2 e2 →
      o = chars "+" ∨ o = chars "-" →
      ConvGram 1 (ts1 ++ o :: ts2) (.bin o e1 e2)
  | ofMul {ts e} : ConvGram 2 ts e → ConvGram 1 ts e
  | mulOp {ts1 e1 ts2 e2 o} : ConvGram 2 ts1 e1 → ConvGram 3 ts2 e2 →
      o = chars "*" ∨ o = chars "/" ∨ o = chars "%" →
      ConvGram 2 (ts1 ++ o :: ts2) (.bin o e1 e2)
  | ofPow {ts e} : ConvGram 3 ts e → ConvGram 2 ts e
  | powOp {ts1 e1 ts2 e2} : ConvGram 4 ts1 e1 → ConvGram 3 ts2 e2 →
      ConvGram 3 (ts1 ++ chars "^" :: ts2) (.bin (chars "^") e1 e2)
  | ofAtom {ts e} : ConvGram 4 ts e → ConvGram 3 ts e
  | lit {s} : isNumber s = true → ConvGram 4 [s] (.num s)
  | paren {ts e} : ConvGram 1 ts e →
      ConvGram 4 (chars "(" :: (ts ++ [chars ")"])) e

/-!
## Correctness of the shunting-yard pass on conventional expressions
-/

/-- Operator-stack elements produced while processing a level-`p` string and
still pending at its end: operators of precedence at least `p`. -/
def Chain (p : ℕ) (l : List Tok) : Prop := ∀ x ∈ l, isOpTok x = true ∧ p ≤ precD x

/-- Stack tops that block the processing of a level-`p` string from popping
into the surrounding context: an open parenthesis, or an operator that no
operator of precedence ≥ `p` pops (for `p = 3` the only such operator is the
right-associative `^`, which pops nothing). -/
def Barrier (p : ℕ) : List Tok → Prop
  | [] => True
  | h :: _ => h = chars "(" ∨ (isOpTok h = true ∧ (precD h < p ∨ 3 ≤ p))

theorem precD_le_three (t : Tok) : precD t ≤ 3 := by
  unfold precD; split_ifs <;> omega

theorem isOpTok_cases {t : Tok} (h : isOpTok t = true) :
    t = chars "+" ∨ t = chars "-" ∨ t = chars "*" ∨
    t = chars "/" ∨ t = chars "^" ∨ t = chars "%" := by
  simpa [isOpTok] using h

theorem isOp_ne_paren {t : Tok} (h : isOpTok t = true) : t ≠ chars "(" := by
  rcases isOpTok_cases h with h | h | h | h | h | h <;> subst h <;> decide

theorem isOp_not_fun {t : Tok} (h : isOpTok t = true) : isFunctionName t = false := by
  rcases isOpTok_cases h with h | h | h | h | h | h <;> subst h <;> decide

theorem isOp_precD_pos {t : Tok} (h : isOpTok t = true) : 1 ≤ precD t := by
  rcases isOpTok_cases h with h | h | h | h | h | h <;> subst h <;> decide

theorem chain_mono {p p' : ℕ} (h : p' ≤ p) {l : List Tok} (hc : Chain p l) :
    Chain p' l :=
  fun x hx => ⟨(hc x hx).1, le_trans h (hc x hx).2⟩

theorem barrier_mono {p p' : ℕ} (h : p ≤ p') {ops : List Tok} (hb : Barrier p ops) :
    Barrier p' ops := by
  cases ops with
  | nil => trivial
  | cons t r =>
      rcases hb with hb | ⟨h1, h2⟩
      · exact Or.inl hb
      · exact Or.inr ⟨h1, by omega⟩

theorem chain_four_nil {l : List Tok} (hc : Chain 4 l) : l = [] := by
  cases l with
  | nil => rfl
  | cons x r =>
      have := hc x (by simp)
      have := precD_le_three x
      omega

theorem popCond_caret (h : Tok) : popCond (chars "^") h = false := by
  have h3 := precD_le_three h
  simp only [popCond, rightAssoc]
  have h4 : precD (chars "^") = 3 := by decide
  simp [h4]
  omega

theorem popCond_paren (t : Tok) : popCond t (chars "(") = false := by
  simp [popCond]

theorem popCond_left_true {t x : Tok} (hra : rightAssoc t = false)
    (hx : isOpTok x = true) (hle : precD t ≤ precD x) : popCond t x = true := by
  simp [popCond, hra, isOp_ne_paren hx, hle]

theorem popCond_lt_false {t x : Tok} (hlt : precD x < precD t) :
    popCond t x = false := by
  by_cases hp : x = chars "("
  · subst hp; exact popCond_paren t
  · simp [popCond, hp]
    constructor
    · intro _; omega
    · intro _; omega

theorem popParen_nil (out : List Tok) : popParen out [] = (out, []) := rfl

theorem popParen_paren (out : List Tok) (r : List Tok) :
    popParen out (chars "(" :: r) = (out, chars "(" :: r) := by
  simp [popParen]

theorem popParen_chain {l : List Tok} (hl : ∀ x ∈ l, x ≠ chars "(")
    (out ops : List Tok) : popParen out (l ++ ops) = popParen (out ++ l) ops := by
  induction l generalizing out with
  | nil => simp
  | cons x r ih =>
      have hx := hl x (by simp)
      rw [List.cons_append, popParen, if_neg hx, ih (fun y hy => hl y (by simp [hy]))]
      simp

theorem popOps_stop {t : Tok} {ops : List Tok}
    (h : ∀ x r, ops = x :: r → popCond t x = false) (out : List Tok) :
    popOps t out ops = (out, ops) := by
  cases ops with
  | nil => rfl
  | cons x r => rw [popOps, if_neg (by simp [h x r rfl])]

theorem popOps_chain {t : Tok} {l : List Tok} (hl : ∀ x ∈ l, popCond t x = true)
    (out ops : List Tok) : popOps t out (l ++ ops) = popOps t (out ++ l) ops := by
  induction l generalizing out with
  | nil => simp
  | cons x r ih =>
      rw [List.cons_append, popOps, if_pos (by simp [hl x (by simp)]),
        ih (fun y hy => hl y (by simp [hy]))]
      simp

theorem closeStep_eval {l ops : List Tok} (hl : ∀ x ∈ l, x ≠ chars "(")
    (hops : ∀ f r, ops = f :: r → isFunctionName f = false) (out : List Tok) :
    closeStep out (l ++ chars "(" :: ops) = (out ++ l, ops) := by
  unfold closeStep
  rw [popParen_chain hl, popParen_paren]
  cases ops with
  | nil => rfl
  | cons f r => simp [hops f r rfl]

theorem shuntState_num {s : Tok} (hs : isNumber s = true) (ts out ops : List Tok) :
    shuntState (s :: ts) out ops = shuntState ts (out ++ [s]) ops := by
  rw [shuntState]
  simp [hs]

theorem shuntState_op {o : Tok} (ho : isOpTok o = true) (ts out ops : List Tok) :
    shuntState (o :: ts) out ops =
      shuntState ts (popOps o out ops).1 (o :: (popOps o out ops).2) := by
  rcases isOpTok_cases ho with h | h | h | h | h | h <;> subst h <;> rfl

theorem shuntState_open (ts out ops : List Tok) :
    shuntState (chars "(" :: ts) out ops = shuntState ts out (chars "(" :: ops) := rfl

theorem shuntState_close (ts out ops : List Tok) :
    shuntState (chars ")" :: ts) out ops =
      shuntState ts (closeStep out ops).1 (closeStep out ops).2 := rfl

/--
Main invariant of the shunting-yard pass: processing a conventionally
well-formed level-`p` segment from any state whose operator-stack top is a
level-`p` barrier appends exactly the postorder serialization of the segment's
parse tree to the output — part of it (`l`, a pending chain of operators of
precedence ≥ `p`) still sitting on the operator stack — and leaves the
rest of the state untouched.
-/
theorem shunt_conv {p : ℕ} {ts : List Tok} {e : Expr} (h : ConvGram p ts e) :
    ∀ out ops ts', Barrier p ops →
      ∃ out2 l, Chain p l ∧ out2 ++ l = out ++ rpn e ∧
        shuntState (ts ++ ts') out ops = shuntState ts' out2 (l ++ ops) := by
  induction h with
  | lit hs =>
      rename_i s
      intro out ops ts' _
      refine ⟨out ++ [s], [], fun x hx => absurd hx (by simp), by simp [rpn], ?_⟩
      simpa using shuntState_num hs ts' out ops
  | addOp h1 h2 ho ih1 ih2 =>
      rename_i ts1 e1 ts2 e2 o
      intro out ops ts' hB
      have hop : isOpTok o = true := by rcases ho with h | h <;> subst h <;> decide
      have hra : rightAssoc o = false := by rcases ho with h | h <;> subst h <;> decide
      have hprec : precD o = 1 := by rcases ho with h | h <;> subst h <;> decide
      obtain ⟨out2, l1, hc1, he1, hs1⟩ := ih1 out ops (o :: (ts2 ++ ts')) hB
      have hpop1 : popOps o out2 (l1 ++ ops) = popOps o (out2 ++ l1) ops :=
        popOps_chain (fun x hx => popCond_left_true hra (hc1 x hx).1
          (by have := (hc1 x hx).2; omega)) _ _
      have hpop2 : popOps o (out2 ++ l1) ops = (out2 ++ l1, ops) := by
        refine popOps_stop (fun x r hx => ?_) _
        subst hx
        rcases hB with hb | ⟨hb1, hb2⟩
        · subst hb; exact popCond_paren o
        · rcases hb2 with hb2 | hb2
          · exact popCond_lt_false (by omega)
          · omega
      obtain ⟨out3, l2, hc2, he2, hs2⟩ := ih2 (out2 ++ l1) (o :: ops) ts'
        (Or.inr ⟨hop, Or.inl (by omega)⟩)
      refine ⟨out3, l2 ++ [o], ?_, ?_, ?_⟩
      · intro x hx
        rcases List.mem_append.mp hx with hx | hx
        · exact ⟨(hc2 x hx).1, by have := (hc2 x hx).2; omega⟩
        · simp only [List.mem_singleton] at hx
          subst hx; exact ⟨hop, by omega⟩
      · rw [← List.append_assoc, he2, he1]
        simp [rpn]
      · calc shuntState ((ts1 ++ o :: ts2) ++ ts') out ops
            = shuntState (ts1 ++ (o :: (ts2 ++ ts'))) out ops := by simp
          _ = shuntState (o :: (ts2 ++ ts')) out2 (l1 ++ ops) := hs1
          _ = shuntState (ts2 ++ ts') (popOps o out2 (l1 ++ ops)).1
                (o :: (popOps o out2 (l1 ++ ops)).2) := shuntState_op hop _ _ _
          _ = shuntState (ts2 ++ ts') (out2 ++ l1) (o :: ops) := by
                rw [hpop1, hpop2]
          _ = shuntState ts' out3 (l2 ++ o :: ops) := hs2
          _ = shuntState ts' out3 ((l2 ++ [o]) ++ ops) := by simp
  | mulOp h1 h2 ho ih1 ih2 =>
      rename_i ts1 e1 ts2 e2 o
      intro out ops ts' hB
      have hop : isOpTok o = true := by rcases ho with h | h | h <;> subst h <;> decide
      have hra : rightAssoc o = false := by rcases ho with h | h | h <;> subst h <;> decide
      have hprec : precD o = 2 := by rcases ho with h | h | h <;> subst h <;> decide
      obtain ⟨out2, l1, hc1, he1, hs1⟩ := ih1 out ops (o :: (ts2 ++ ts')) hB
      have hpop1 : popOps o out2 (l1 ++ ops) = popOps o (out2 ++ l1) ops :=
        popOps_chain (fun x hx => popCond_left_true hra (hc1 x hx).1
          (by have := (hc1 x hx).2; omega)) _ _
      have hpop2 : popOps o (out2 ++ l1) ops = (out2 ++ l1, ops) := by
        refine popOps_stop (fun x r hx => ?_) _
        subst hx
        rcases hB with hb | ⟨hb1, hb2⟩
        · subst hb; exact popCond_paren o
        · rcases hb2 with hb2 | hb2
          · exact popCond_lt_false (by omega)
          · omega
      obtain ⟨out3, l2, hc2, he2, hs2⟩ := ih2 (out2 ++ l1) (o :: ops) ts'
        (Or.inr ⟨hop, Or.inl (by omega)⟩)
      refine ⟨out3, l2 ++ [o], ?_, ?_, ?_⟩
      · intro x hx
        rcases List.mem_append.mp hx with hx | hx
        · exact ⟨(hc2 x hx).1, by have := (hc2 x hx).2; omega⟩
        · simp only [List.mem_singleton] at hx
          subst hx; exact ⟨hop, by omega⟩
      · rw [← List.append_assoc, he2, he1]
        simp [rpn]
      · calc shuntState ((ts1 ++ o :: ts2) ++ ts') out ops
            = shuntState (ts1 ++ (o :: (ts2 ++ ts'))) out ops := by simp
          _ = shuntState (o :: (ts2 ++ ts')) out2 (l1 ++ ops) := hs1
          _ = shuntState (ts2 ++ ts') (popOps o out2 (l1 ++ ops)).1
                (o :: (popOps o out2 (l1 ++ ops)).2) := shuntState_op hop _ _ _
          _ = shuntState (ts2 ++ ts') (out2 ++ l1) (o :: ops) := by
                rw [hpop1, hpop2]
          _ = shuntState ts' out3 (l2 ++ o :: ops) := hs2
          _ = shuntState ts' out3 ((l2 ++ [o]) ++ ops) := by simp
  | powOp h1 h2 ih1 ih2 =>
      rename_i ts1 e1 ts2 e2
      intro out ops ts' hB
      obtain ⟨out2, l1, hc1, he1, hs1⟩ :=
        ih1 out ops (chars "^" :: (ts2 ++ ts')) (barrier_mono (by omega) hB)
      have hl1 : l1 = [] := chain_four_nil hc1
      subst hl1
      simp only [List.append_nil] at he1
      have hpop : popOps (chars "^") out2 ops = (out2, ops) :=
        popOps_stop (fun x r _ => popCond_caret x) _
      obtain ⟨out3, l2, hc2, he2, hs2⟩ := ih2 out2 (chars "^" :: ops) ts'
        (Or.inr ⟨by decide, Or.inr (by decide)⟩)
      refine ⟨out3, l2 ++ [chars "^"], ?_, ?_, ?_⟩
      · intro x hx
        rcases List.mem_append.mp hx with hx | hx
        · exact ⟨(hc2 x hx).1, (hc2 x hx).2⟩
        · simp only [List.mem_singleton] at hx
          subst hx; exact ⟨by decide, by decide⟩
      · rw [← List.append_assoc, he2, he1]
        simp [rpn]
      · calc shuntState ((ts1 ++ chars "^" :: ts2) ++ ts') out ops
            = shuntState (ts1 ++ (chars "^" :: (ts2 ++ ts'))) out ops := by simp
          _ = shuntState (chars "^" :: (ts2 ++ ts')) out2 ([] ++ ops) := hs1
          _ = shuntState (ts2 ++ ts') (popOps (chars "^") out2 ops).1
                (chars "^" :: (popOps (chars "^") out2 ops).2) := by
                rw [List.nil_append]
                exact shuntState_op (by decide) _ _ _
          _ = shuntState (ts2 ++ ts') out2 (chars "^" :: ops) := by rw [hpop]
          _ = shuntState ts' out3 (l2 ++ chars "^" :: ops) := hs2
          _ = shuntState ts' out3 ((l2 ++ [chars "^"]) ++ ops) := by simp
  | ofMul h ih =>
      intro out ops ts' hB
      obtain ⟨out2, l, hc, he, hs⟩ := ih out ops ts' (barrier_mono (by omega) hB)
      exact ⟨out2, l, chain_mono (by omega) hc, he, hs⟩
  | ofPow h ih =>
      intro out ops ts' hB
      obtain ⟨out2, l, hc, he, hs⟩ := ih out ops ts' (barrier_mono (by omega) hB)
      exact ⟨out2, l, chain_mono (by omega) hc, he, hs⟩
  | ofAtom h ih =>
      intro out ops ts' hB
      obtain ⟨out2, l, hc, he, hs⟩ := ih out ops ts' (barrier_mono (by omega) hB)
      exact ⟨out2, l, chain_mono (by omega) hc, he, hs⟩
  | paren h ih =>
      rename_i ts1 e1
      intro out ops ts' hB
      obtain ⟨out2, l1, hc1, he1, hs1⟩ :=
        ih out (chars "(" :: ops) (chars ")" :: ts') (Or.inl rfl)
      have hclose : closeStep out2 (l1 ++ chars "(" :: ops) = (out2 ++ l1, ops) := by
        refine closeStep_eval (fun x hx => isOp_ne_paren (hc1 x hx).1)
          (fun f r hf => ?_) out2
        subst hf
        rcases hB with hb | ⟨hb1, _⟩
        · subst hb; decide
        · exact isOp_not_fun hb1
      refine ⟨out2 ++ l1, [], fun x hx => absurd hx (by simp), by simpa using he1, ?_⟩
      calc shuntState ((chars "(" :: (ts1 ++ [chars ")"])) ++ ts') out ops
            = shuntState (ts1 ++ (chars ")" :: ts')) out (chars "(" :: ops) := by
              rw [List.cons_append, shuntState_open]
              simp
          _ = shuntState (chars ")" :: ts') out2 (l1 ++ chars "(" :: ops) := hs1
          _ = shuntState ts' (out2 ++ l1) ops := by
              rw [shuntState_close, hclose]
          _ = shuntState ts' (out2 ++ l1) ([] ++ ops) := by simp

/-- The shunting-yard pass sends a conventionally well-formed expression to
the postorder serialization of its conventional parse tree. -/
theorem shunt_eq_rpn {ts : List Tok} {e : Expr} (h : ConvGram 1 ts e) :
    shunt ts = rpn e := by
  obtain ⟨out2, l, _, he, hs⟩ := shunt_conv h [] [] [] trivial
  rw [List.append_nil] at hs
  have hstate : shuntState ts [] [] = (out2, l) := by
    rw [hs, List.append_nil, shuntState]
  rw [shunt, hstate]
  simpa using he

theorem rpnStep_binop (M : MathLib) {o : Tok} (ho : isOpTok o = true)
    (a b : JsVal) (st : List JsVal) :
    rpnStep M (b :: a :: st) o = .ok (binFn M o a b :: st) := by
  rcases isOpTok_cases ho with h | h | h | h | h | h <;> subst h <;> rfl

theorem rpnStep_lit (M : MathLib) {s : Tok} (hs : isNumber s = true)
    (st : List JsVal) : rpnStep M st s = .ok (.fin (parseFloatTok s) :: st) := by
  rw [rpnStep, if_pos hs]

/-- RPN evaluation of a postorder serialization computes the conventional
recursive evaluation, pushed on whatever stack was there before. -/
theorem rpnFold_conv (M : MathLib) {p : ℕ} {ts : List Tok} {e : Expr}
    (h : ConvGram p ts e) :
    ∀ st, (rpn e).foldlM (rpnStep M) st = .ok (evalE M e :: st) := by
  induction h with
  | lit hs =>
      intro st
      simp [rpn, evalE, List.foldlM, rpnStep_lit M hs]
  | addOp h1 h2 ho ih1 ih2 =>
      rename_i ts1 e1 ts2 e2 o
      intro st
      have hop : isOpTok o = true := by rcases ho with h | h <;> subst h <;> decide
      simp only [rpn, evalE, List.foldlM_append, ih1, ih2]
      calc (Except.ok (evalE M e1 :: st) >>= fun x =>
              Except.ok (evalE M e2 :: x) >>= fun init =>
                List.foldlM (rpnStep M) init [o])
          = List.foldlM (rpnStep M) (evalE M e2 :: evalE M e1 :: st) [o] := rfl
        _ = Except.ok (binFn M o (evalE M e1) (evalE M e2) :: st) := by
            simp [List.foldlM, rpnStep_binop M hop]
  | mulOp h1 h2 ho ih1 ih2 =>
      rename_i ts1 e1 ts2 e2 o
      intro st
      have hop : isOpTok o = true := by rcases ho with h | h | h <;> subst h <;> decide
      simp only [rpn, evalE, List.foldlM_append, ih1, ih2]
      calc (Except.ok (evalE M e1 :: st) >>= fun x =>
              Except.ok (evalE M e2 :: x) >>= fun init =>
                List.foldlM (rpnStep M) init [o])
          = List.foldlM (rpnStep M) (evalE M e2 :: evalE M e1 :: st) [o] := rfl
        _ = Except.ok (binFn M o (evalE M e1) (evalE M e2) :: st) := by
            simp [List.foldlM, rpnStep_binop M hop]
  | powOp h1 h2 ih1 ih2 =>
      rename_i ts1 e1 ts2 e2
      intro st
      have hop : isOpTok (chars "^") = true := by decide
      simp only [rpn, evalE, List.foldlM_append, ih1, ih2]
      calc (Except.ok (evalE M e1 :: st) >>= fun x =>
              Except.ok (evalE M e2 :: x) >>= fun init =>
                List.foldlM (rpnStep M) init [chars "^"])
          = List.foldlM (rpnStep M) (evalE M e2 :: evalE M e1 :: st) [chars "^"] := rfl
        _ = Except.ok (binFn M (chars "^") (evalE M e1) (evalE M e2) :: st) := by
            simp [List.foldlM, rpnStep_binop M hop]
  | ofMul h ih => exact ih
  | ofPow h ih => exact ih
  | ofAtom h ih => exact ih
  | paren h ih => exact ih

theorem normTok_ofNumber {s : Tok} (h : isNumber s = true) : normTok s = s := by
  have h1 : s ≠ chars "π" := by rintro rfl; revert h; decide
  have h2 : s ≠ chars "pi" := by rintro rfl; revert h; decide
  have h3 : s ≠ chars "PI" := by rintro rfl; revert h; decide
  have h4 : s ≠ chars "e" := by rintro rfl; revert h; decide
  obtain ⟨c, cs, rfl, hc⟩ : ∃ c cs, s = c :: cs ∧ isDigit c = true := by
    cases s with
    | nil => exact absurd h (by decide)
    | cons c cs =>
        refine ⟨c, cs, rfl, ?_⟩
        by_contra hc
        rw [isNumber, List.takeWhile_cons_of_neg (by simpa using hc)] at h
        simp at h
  have halpha : isAsciiAlpha c = false := by
    revert hc
    simp [isDigit, isAsciiAlpha]
    omega
  simp [normTok, h1, h2, h3, h4, halpha]

/-- Normalization is the identity on conventionally well-formed token strings
(numeric literals, the six operators and parentheses are untouched by it). -/
theorem map_norm_conv {p : ℕ} {ts : List Tok} {e : Expr} (h : ConvGram p ts e) :
    ts.map normTok = ts := by
  induction h with
  | lit hs => simp [normTok_ofNumber hs]
  | addOp h1 h2 ho ih1 ih2 =>
      rename_i ts1 e1 ts2 e2 o
      have hno : normTok o = o := by rcases ho with h | h <;> subst h <;> decide
      simp [ih1, ih2, hno]
  | mulOp h1 h2 ho ih1 ih2 =>
      rename_i ts1 e1 ts2 e2 o
      have hno : normTok o = o := by rcases ho with h | h | h <;> subst h <;> decide
      simp [ih1, ih2, hno]
  | powOp h1 h2 ih1 ih2 =>
      simp [ih1, ih2, show normTok (chars "^") = chars "^" from by decide]
  | ofMul h ih => exact ih
  | ofPow h ih => exact ih
  | ofAtom h ih => exact ih
  | paren h ih =>
      simp [ih, show normTok (chars "(") = chars "(" from by decide,
        show normTok (chars ")") = chars ")" from by decide]

/-- Evaluating a conventionally well-formed token string returns the value of
conventional infix evaluation of its parse tree. -/
theorem evalToks_conv (M : MathLib) {ts : List Tok} {e : Expr}
    (h : ConvGram 1 ts e) : evalToks M ts = .ok (evalE M e) := by
  rw [evalToks, map_norm_conv h, shunt_eq_rpn h, rpnEval, rpnFold, rpnFold_conv M h]
  simp

/-!
## Numeric-literal round trips
-/

theorem tokenizeF_nil (n : ℕ) : tokenizeF n [] = [] := by cases n <;> rfl

theorem isNumber_head {s : Tok} (h : isNumber s = true) :
    ∃ c cs, s = c :: cs ∧ isDigit c = true := by
  cases s with
  | nil => exact absurd h (by decide)
  | cons c cs =>
      refine ⟨c, cs, rfl, ?_⟩
      by_contra hc
      rw [isNumber, List.takeWhile_cons_of_neg (by simpa using hc)] at h
      simp at h

/-- The tokenizer's step at a leading digit. -/
theorem tokenizeF_digit {c : Char} (hc : isDigit c = true) (fuel : ℕ) (cs : List Char) :
    tokenizeF (fuel + 1) (c :: cs) =
      (match cs.dropWhile isDigit with
       | '.' :: t =>
           (c :: (cs.takeWhile isDigit ++ '.' :: t.takeWhile isDigit)) ::
             tokenizeF fuel (t.dropWhile isDigit)
       | _ => (c :: cs.takeWhile isDigit) :: tokenizeF fuel (cs.dropWhile isDigit)) := by
  rw [tokenizeF.eq_def]
  simp [hc]

/-- A token passing `isNumber` is rescanned by the tokenizer as exactly one
token, namely itself. -/
theorem tokenize_ofNumber {s : Tok} (h : isNumber s = true) : tokenize s = [s] := by
  obtain ⟨c, cs, rfl, hc⟩ := isNumber_head h
  have hdrop : (c :: cs).dropWhile isDigit = cs.dropWhile isDigit :=
    List.dropWhile_cons_of_pos hc
  rw [tokenize, List.length_cons, tokenizeF_digit hc]
  rw [isNumber, hdrop] at h
  cases hd : cs.dropWhile isDigit with
  | nil =>
      have hall : ∀ x ∈ cs, isDigit x = true := List.dropWhile_eq_nil_iff.mp hd
      show (c :: cs.takeWhile isDigit) :: tokenizeF cs.length [] = [c :: cs]
      rw [tokenizeF_nil, List.takeWhile_eq_self_iff.mpr hall]
  | cons d u =>
      rw [hd] at h
      simp only [Bool.and_eq_true, decide_eq_true_eq] at h
      obtain ⟨hdot, hu⟩ := h.2
      subst hdot
      show (c :: (cs.takeWhile isDigit ++ '.' :: u.takeWhile isDigit)) ::
          tokenizeF cs.length (u.dropWhile isDigit) = [c :: cs]
      have hallu : ∀ x ∈ u, isDigit x = true := by simpa using hu
      rw [List.takeWhile_eq_self_iff.mpr hallu,
        List.dropWhile_eq_nil_iff.mpr hallu, tokenizeF_nil]
      have hcs : cs.takeWhile isDigit ++ '.' :: u = cs := by
        conv_rhs => rw [← List.takeWhile_append_dropWhile isDigit cs, hd]
      rw [hcs]

/-- Evaluating the decimal-numeral rendering of a value returns exactly that
value: the string is scanned as a single literal, left untouched by
normalization and the parser, and pushed by the RPN loop as its parsed value. -/
theorem evaluateExpression_numeral (M : MathLib) {s : Tok} (h : isNumber s = true) :
    evaluateExpression M (String.mk s) = .ok (.fin (parseFloatTok s)) := by
  rw [evaluateExpression, show (String.mk s).data = s from rfl, tokenize_ofNumber h,
    evalToks, List.map_cons, List.map_nil, normTok_ofNumber h]
  have hsh : shunt [s] = [s] := by
    rw [shunt, shuntState_num h [] [] [], shuntState]
    simp
  rw [hsh, rpnEval, rpnFold]
  simp [List.foldlM, rpnStep_lit M h]

/-!
## Factorial
-/

theorem factLoop_eq_factorial : ∀ n : ℕ, factLoop n = n.factorial
  | 0 => rfl
  | 1 => rfl
  | n + 2 => by
      rw [factLoop, factLoop_eq_factorial (n + 1), Nat.factorial_succ (n + 1)]
      exact Nat.mul_comm _ _

theorem ratFloor_toNat (q : ℚ) : q.floor.toNat = ⌊q⌋₊ := by
  rw [Rat.floor_def', ← Rat.floor_def, Int.floor_toNat]

/-- `factorialFn` on a finite in-range operand computes the factorial of the
floor of the operand. -/
theorem factorialFn_fin {q : ℚ} (h0 : 0 ≤ q) (h170 : q ≤ 170) :
    factorialFn (.fin q) = .fin (Nat.factorial ⌊q⌋₊) := by
  rw [factorialFn, if_neg (by push_neg; exact ⟨h0, h170⟩)]
  by_cases hq : q = 0
  · subst hq
    simp
  · rw [if_neg hq, factLoop_eq_factorial, ratFloor_toNat]

/-!
## Relating the result to the final operand stack
-/

theorem evaluateExpression_eq_finalStack (M : MathLib) (input : String) :
    evaluateExpression M input =
      (match finalStack M input with
       | .error e => .error e
       | .ok st => if st.length = 1 then .ok (st.head?.getD .nan)
                   else .error "Invalid expression") := rfl

/-!
## The claims
-/

unseal Rat.add Rat.mul Rat.sub Rat.inv in
/-- C1: for every well-formed expression built from non-negative numeric
literals and the binary operators `+ - * / % ^` with balanced parentheses
(`ConvGram 1`), `evaluateExpression` returns the value of conventional infix
evaluation under the precedence table `+`,`-` = 1; `*`,`/`,`%` = 2; `^` = 3,
with `^` right-associative, the others left-associative, and parentheses
overriding precedence; in particular `"2+3*4"` evaluates to `14`, `"2^3^2"`
to `512` (right-associated, assuming only the true JS facts
`Math.pow(3,2) = 9` and `Math.pow(2,9) = 512`), and `"(2+3)*4"` to `20`. -/
theorem evaluator_conventional_precedence (M : MathLib)
    (hpow32 : M.pow (.fin 3) (.fin 2) = .fin 9)
    (hpow29 : M.pow (.fin 2) (.fin 9) = .fin 512) :
    (∀ ts e, ConvGram 1 ts e → evalToks M ts = .ok (evalE M e)) ∧
    evaluateExpression M "2+3*4" = .ok (.fin 14) ∧
    evaluateExpression M "2^3^2" = .ok (.fin 512) ∧
    evaluateExpression M "(2+3)*4" = .ok (.fin 20) := by
  refine ⟨fun ts e h => evalToks_conv M h, rfl, ?_, rfl⟩
  calc evaluateExpression M "2^3^2"
      = .ok (M.pow (.fin 2) (M.pow (.fin 3) (.fin 2))) := rfl
    _ = .ok (.fin 512) := by rw [hpow32, hpow29]

unseal Rat.add Rat.mul Rat.sub Rat.inv in
/-- Witness for C1: the hypotheses and conclusion hold at the reference
`Math` instance. -/
theorem evaluator_conventional_precedence_witness :
    refMath.pow (.fin 3) (.fin 2) = .fin 9 ∧
    refMath.pow (.fin 2) (.fin 9) = .fin 512 ∧
    ((∀ ts e, ConvGram 1 ts e → evalToks refMath ts = .ok (evalE refMath e)) ∧
      evaluateExpression refMath "2+3*4" = .ok (.fin 14) ∧
      evaluateExpression refMath "2^3^2" = .ok (.fin 512) ∧
      evaluateExpression refMath "(2+3)*4" = .ok (.fin 20)) :=
  ⟨by decide, by decide,
    evaluator_conventional_precedence refMath (by decide) (by decide)⟩

unseal Rat.add Rat.mul Rat.sub Rat.inv in
/-- C2 counterexample: `"2+3)"` does not raise an error — the unmatched
closing parenthesis is silently dropped (`ops.pop()` on an empty stack is a
no-op) and evaluation returns `5`. -/
theorem unmatched_close_counterexample :
    evaluateExpression refMath "2+3)" = .ok (.fin 5) ∧
    ∀ msg, evaluateExpression refMath "2+3)" ≠ .error msg := by
  have h : evaluateExpression refMath "2+3)" = .ok (.fin 5) := by decide
  exact ⟨h, fun msg hmsg => by rw [h] at hmsg; exact Except.noConfusion hmsg⟩

unseal Rat.add Rat.mul Rat.sub Rat.inv in
/-- C2 amended: an unclosed `(` is a fatal error (the stray `(` is flushed to
the output queue and fails to parse at evaluation time), but a closing
parenthesis with no matching open parenthesis is silently ignored:
`"(2+3"` raises a fatal error while `"2+3)"` returns `5`. -/
theorem unbalanced_paren_behavior (M : MathLib) :
    evaluateExpression M "(2+3" = .error "Invalid expression token: (" ∧
    evaluateExpression M "2+3)" = .ok (.fin 5) :=
  ⟨rfl, rfl⟩

/-- Witness for C2's amended claim at the reference `Math` instance. -/
theorem unbalanced_paren_behavior_witness :
    evaluateExpression refMath "(2+3" = .error "Invalid expression token: (" ∧
    evaluateExpression refMath "2+3)" = .ok (.fin 5) :=
  unbalanced_paren_behavior refMath

unseal Rat.add Rat.mul Rat.sub Rat.inv in
/-- C3 counterexample: `"2+"` does not raise an error — the RPN loop pops the
missing operand as `undefined`, the addition yields `NaN`, and evaluation
returns `NaN` as a value. -/
theorem underflow_counterexample :
    evaluateExpression refMath "2+" = .ok .nan ∧
    evaluateExpression refMath "*5" = .ok .nan ∧
    ∀ msg, evaluateExpression refMath "2+" ≠ .error msg := by
  have h : evaluateExpression refMath "2+" = .ok .nan := by decide
  exact ⟨h, by decide, fun msg hmsg => by rw [h] at hmsg; exact Except.noConfusion hmsg⟩

unseal Rat.add Rat.mul Rat.sub Rat.inv in
/-- C3 amended: operand-stack underflow is not detected.  A missing operand is
popped as `undefined` (modelled `NaN`) and the operation is applied to it, so
`"2+"` and `"*5"` evaluate to `NaN` without any error. -/
theorem underflow_not_checked (M : MathLib) :
    (∀ f : JsVal → JsVal → JsVal, ∀ b, binApply f [b] = [f .nan b]) ∧
    (∀ f : JsVal → JsVal → JsVal, binApply f [] = [f .nan .nan]) ∧
    evaluateExpression M "2+" = .ok .nan ∧
    evaluateExpression M "*5" = .ok .nan :=
  ⟨fun f b => rfl, fun f => rfl, rfl, rfl⟩

/-- Witness for C3's amended claim at the reference `Math` instance. -/
theorem underflow_not_checked_witness :
    evaluateExpression refMath "2+" = .ok .nan ∧
    evaluateExpression refMath "*5" = .ok .nan :=
  ⟨(underflow_not_checked refMath).2.2.1, (underflow_not_checked refMath).2.2.2⟩

unseal Rat.add Rat.mul Rat.sub Rat.inv in
/-- C4 counterexample: round-trip idempotence fails for negative results:
`"2-3"` evaluates to `-1`, but evaluating its decimal string form `"-1"`
returns `NaN` (the leading `-` is parsed as a binary minus with a missing
left operand), not `-1`. -/
theorem roundtrip_negative_counterexample :
    evaluateExpression refMath "2-3" = .ok (.fin (-1)) ∧
    evaluateExpression refMath "-1" = .ok .nan ∧
    JsVal.nan ≠ JsVal.fin (-1) :=
  ⟨by decide, by decide, by decide⟩

unseal Rat.add Rat.mul Rat.sub Rat.inv in
/-- C4 amended: re-evaluating the decimal form of a result returns exactly
that result for non-negative results (whose decimal form is a plain numeral
matched by the evaluator's literal class): any numeral token re-evaluates to
its parsed value, e.g. `"2+3*4"` gives `14` and `"14"` gives `14` again.
Negative results break the round trip (their leading `-` is read as a binary
operator, giving `NaN`). -/
theorem roundtrip_numerals (M : MathLib) :
    (∀ s : Tok, isNumber s = true →
      evaluateExpression M (String.mk s) = .ok (.fin (parseFloatTok s))) ∧
    evaluateExpression M "2+3*4" = .ok (.fin 14) ∧
    evaluateExpression M "14" = .ok (.fin 14) ∧
    evaluateExpression M "-1" = .ok .nan :=
  ⟨fun s h => evaluateExpression_numeral M h, rfl, rfl, rfl⟩

/-- Witness for C4's amended claim: the numeral lemma applied at `"14"`. -/
theorem roundtrip_numerals_witness :
    isNumber (chars "14") = true ∧
    evaluateExpression refMath (String.mk (chars "14")) =
      .ok (.fin (parseFloatTok (chars "14"))) :=
  ⟨by decide, (roundtrip_numerals refMath).1 (chars "14") (by decide)⟩

unseal Rat.add Rat.mul Rat.sub Rat.inv in
/-- C5: the postfix `!` pops one operand; a finite operand `n` with `n < 0` or
`n > 170` gives `Infinity` (the overflow sentinel — a value, not an error),
and an in-range operand gives the integer product `1·2·…·⌊n⌋` (i.e. `⌊n⌋!`),
with `0! = 1`: `"0!"` evaluates to `1`, `"5!"` to `120`, `"171!"` to
`Infinity`. -/
theorem factorial_behavior (M : MathLib) :
    (∀ st, rpnStep M st (chars "!") =
      .ok (factorialFn (st.head?.getD .nan) :: st.tail)) ∧
    (∀ q : ℚ, q < 0 ∨ 170 < q → factorialFn (.fin q) = .inf) ∧
    (∀ q : ℚ, 0 ≤ q → q ≤ 170 → factorialFn (.fin q) = .fin (Nat.factorial ⌊q⌋₊)) ∧
    evaluateExpression M "0!" = .ok (.fin 1) ∧
    evaluateExpression M "5!" = .ok (.fin 120) ∧
    evaluateExpression M "171!" = .ok .inf := by
  refine ⟨fun st => rfl, fun q hq => by rw [factorialFn, if_pos hq],
    fun q h0 h170 => factorialFn_fin h0 h170, rfl, rfl, rfl⟩

/-- Witness for C5 at the reference `Math` instance, with the in-range clause
instantiated at `5`. -/
theorem factorial_behavior_witness :
    (0 : ℚ) ≤ 5 ∧ (5 : ℚ) ≤ 170 ∧
    factorialFn (.fin 5) = .fin (Nat.factorial ⌊(5 : ℚ)⌋₊) ∧
    evaluateExpression refMath "171!" = .ok .inf :=
  ⟨by norm_num, by norm_num,
    (factorial_behavior refMath).2.2.1 5 (by norm_num) (by norm_num),
    (factorial_behavior refMath).2.2.2.2.2⟩

unseal Rat.add Rat.mul Rat.sub Rat.inv in
/-- C6: the result is `.ok v` exactly when the RPN loop terminates with the
operand stack `[v]`; a final stack of any other size yields the fatal
`Invalid expression` error, e.g. for `"2 3"` (two literals, no operator,
final stack of size two) and for `""` (empty final stack). -/
theorem final_stack_contract (M : MathLib) :
    (∀ input v, evaluateExpression M input = .ok v ↔ finalStack M input = .ok [v]) ∧
    (∀ input st, finalStack M input = .ok st → st.length ≠ 1 →
      evaluateExpression M input = .error "Invalid expression") ∧
    evaluateExpression M "2 3" = .error "Invalid expression" ∧
    evaluateExpression M "" = .error "Invalid expression" := by
  have key : ∀ input st, finalStack M input = .ok st →
      evaluateExpression M input =
        (if st.length = 1 then .ok (st.head?.getD .nan)
         else .error "Invalid expression") := by
    intro input st hst
    rw [evaluateExpression_eq_finalStack, hst]
  have keyErr : ∀ input e, finalStack M input = .error e →
      evaluateExpression M input = .error e := by
    intro input e hst
    rw [evaluateExpression_eq_finalStack, hst]
  refine ⟨fun input v => ?_,
    fun input st hst hlen => by rw [key input st hst, if_neg hlen], rfl, rfl⟩
  cases hfs : finalStack M input with
  | error e =>
      rw [keyErr input e hfs]
      simp
  | ok st =>
      rw [key input st hfs]
      by_cases hlen : st.length = 1
      · obtain ⟨a, rfl⟩ := List.length_eq_one.mp hlen
        simp
      · rw [if_neg hlen]
        constructor
        · intro h; exact absurd h (by simp)
        · intro h
          obtain rfl : st = [v] := by simpa using h
          simp at hlen

/-- Witness for C6 at the reference `Math` instance, with the first clause
instantiated at `"2+3*4"` and `14`. -/
theorem final_stack_contract_witness :
    (evaluateExpression refMath "2+3*4" = .ok (.fin 14) ↔
      finalStack refMath "2+3*4" = .ok [.fin 14]) ∧
    evaluateExpression refMath "2 3" = .error "Invalid expression" :=
  ⟨(final_stack_contract refMath).1 "2+3*4" (.fin 14),
    (final_stack_contract refMath).2.2.1⟩

unseal Rat.add Rat.mul Rat.sub Rat.inv in
/-- C7 counterexample: `√` is not handled as a function token — the tokenizer's
character classes contain `π` but not `√`, so `√` is skipped entirely:
`"√(16)"` tokenizes as `( 16 )` and evaluates to `16`, not to `4`, even though
`Math.sqrt(16) = 4` at the reference instance. -/
theorem sqrt_symbol_counterexample :
    evaluateExpression refMath "√(16)" = .ok (.fin 16) ∧
    tokenize (chars "√(16)") = [chars "(", chars "16", chars ")"] ∧
    refMath.sqrt (.fin 16) = .fin 4 ∧
    JsVal.fin 16 ≠ JsVal.fin 4 :=
  ⟨by decide, by decide, by decide, by decide⟩

unseal Rat.add Rat.mul Rat.sub Rat.inv in
/-- C7 amended: the square-root symbol `√` matches no tokenizer class and is
silently dropped, so `"√(16)"` evaluates to `16`; only the named function
`sqrt` is pushed on the operator stack and popped right after its argument's
closing parenthesis: `"sqrt(16)"` evaluates to `4` (assuming the true JS fact
`Math.sqrt(16) = 4`). -/
theorem sqrt_symbol_vs_name (M : MathLib) (hs : M.sqrt (.fin 16) = .fin 4) :
    (∀ l : List Char, tokenize ('√' :: l) = tokenize l) ∧
    evaluateExpression M "√(16)" = .ok (.fin 16) ∧
    evaluateExpression M "sqrt(16)" = .ok (.fin 4) := by
  refine ⟨fun l => rfl, rfl, ?_⟩
  calc evaluateExpression M "sqrt(16)" = .ok (M.sqrt (.fin 16)) := rfl
    _ = .ok (.fin 4) := by rw [hs]

/-- Witness for C7's amended claim at the reference `Math` instance. -/
theorem sqrt_symbol_vs_name_witness :
    refMath.sqrt (.fin 16) = .fin 4 ∧
    ((∀ l : List Char, tokenize ('√' :: l) = tokenize l) ∧
      evaluateExpression refMath "√(16)" = .ok (.fin 16) ∧
      evaluateExpression refMath "sqrt(16)" = .ok (.fin 4)) :=
  ⟨by decide, sqrt_symbol_vs_name refMath (by decide)⟩

unseal Rat.add Rat.mul Rat.sub Rat.inv in
/-- C8: a token that is not a number, a known function name, `,`, a
parenthesis, `!` or a binary operator is passed through to the output queue by
the parser, and the evaluation loop then raises the fatal `Invalid expression
token` error exactly when `Number(token)` fails to parse it: `"abc"` is fatal,
while the unknown token `".5"` (which fails the evaluator's `isNumber` test
but parses as a number) is pushed as the literal `0.5`. -/
theorem unknown_token_passthrough (M : MathLib) :
    (∀ t ts out ops, isNumber t = false → isFunctionName t = false →
      t ≠ chars "," → t ≠ chars "(" → t ≠ chars ")" → t ≠ chars "!" →
      isOpTok t = false →
      shuntState (t :: ts) out ops = shuntState ts (out ++ [t]) ops) ∧
    (∀ t st, isNumber t = false → isOpTok t = false → t ≠ chars "!" →
      isFunctionName t = false →
      rpnStep M st t =
        (match jsNumber t with
         | some v => .ok (v :: st)
         | none => .error ("Invalid expression token: " ++ String.mk t))) ∧
    evaluateExpression M "abc" = .error "Invalid expression token: abc" ∧
    evaluateExpression M ".5" = .ok (.fin (mkRat 1 2)) := by
  refine ⟨fun t ts out ops hnum hfun hc ho hcl hb hop => ?_,
    fun t st hnum hop hbang hfun => ?_, rfl, rfl⟩
  · have h1 : t ≠ chars "+" := fun h => by subst h; exact absurd hop (by decide)
    have h2 : t ≠ chars "-" := fun h => by subst h; exact absurd hop (by decide)
    have h3 : t ≠ chars "*" := fun h => by subst h; exact absurd hop (by decide)
    have h4 : t ≠ chars "/" := fun h => by subst h; exact absurd hop (by decide)
    have h5 : t ≠ chars "^" := fun h => by subst h; exact absurd hop (by decide)
    have h6 : t ≠ chars "%" := fun h => by subst h; exact absurd hop (by decide)
    rw [shuntState]
    simp [hnum, hfun, hc, ho, hcl, hb, hop]
  · have h1 : t ≠ chars "+" := fun h => by subst h; exact absurd hop (by decide)
    have h2 : t ≠ chars "-" := fun h => by subst h; exact absurd hop (by decide)
    have h3 : t ≠ chars "*" := fun h => by subst h; exact absurd hop (by decide)
    have h4 : t ≠ chars "/" := fun h => by subst h; exact absurd hop (by decide)
    have h5 : t ≠ chars "^" := fun h => by subst h; exact absurd hop (by decide)
    have h6 : t ≠ chars "%" := fun h => by subst h; exact absurd hop (by decide)
    have f1 : t ≠ chars "sin" := fun h => by subst h; exact absurd hfun (by decide)
    have f2 : t ≠ chars "cos" := fun h => by subst h; exact absurd hfun (by decide)
    have f3 : t ≠ chars "tan" := fun h => by subst h; exact absurd hfun (by decide)
    have f4 : t ≠ chars "sqrt" := fun h => by subst h; exact absurd hfun (by decide)
    have f5 : t ≠ chars "ln" := fun h => by subst h; exact absurd hfun (by decide)
    have f6 : t ≠ chars "log" := fun h => by subst h; exact absurd hfun (by decide)
    rw [rpnStep]
    simp [hnum, h1, h2, h3, h4, h5, h6, hbang, f1, f2, f3, f4, f5, f6]

/-- Witness for C8 at the reference `Math` instance, with the pass-through
clauses instantiated at the token `"abc"`. -/
theorem unknown_token_passthrough_witness :
    shuntState [chars "abc"] [] [] = shuntState [] [chars "abc"] [] ∧
    rpnStep refMath [] (chars "abc") =
      (match jsNumber (chars "abc") with
       | some v => .ok (v :: [])
       | none => .error ("Invalid expression token: " ++ String.mk (chars "abc"))) ∧
    evaluateExpression refMath ".5" = .ok (.fin (mkRat 1 2)) := by
  refine ⟨?_, ?_, (unknown_token_passthrough refMath).2.2.2⟩
  · have h := (unknown_token_passthrough refMath).1 (chars "abc") [] [] []
      (by decide) (by decide) (by decide) (by decide) (by decide) (by decide) (by decide)
    simpa using h
  · exact (unknown_token_passthrough refMath).2.1 (chars "abc") []
      (by decide) (by decide) (by decide) (by decide)

unseal Rat.add Rat.mul Rat.sub Rat.inv in
/-- C9: each unary function pops its operand and pushes the corresponding
`Math` function applied to it — `sin`/`cos`/`tan` in radians, `sqrt` the
square root, `log` base-10 and `ln` natural — so, assuming only the true JS
`Math` facts at these arguments: `"sin(0)"` evaluates to `0`, `"cos(0)"` to
`1`, `"sqrt(16)"` to `4`, `"log(100)"` to `2` and `"ln(1)"` to `0`. -/
theorem unary_function_evaluation (M : MathLib)
    (hsin : M.sin (.fin 0) = .fin 0) (hcos : M.cos (.fin 0) = .fin 1)
    (hsqrt : M.sqrt (.fin 16) = .fin 4) (hlog : M.log10 (.fin 100) = .fin 2)
    (hln : M.ln (.fin 1) = .fin 0) :
    evaluateExpression M "sin(0)" = .ok (.fin 0) ∧
    evaluateExpression M "cos(0)" = .ok (.fin 1) ∧
    evaluateExpression M "sqrt(16)" = .ok (.fin 4) ∧
    evaluateExpression M "log(100)" = .ok (.fin 2) ∧
    evaluateExpression M "ln(1)" = .ok (.fin 0) := by
  refine ⟨?_, ?_, ?_, ?_, ?_⟩
  · calc evaluateExpression M "sin(0)" = .ok (M.sin (.fin 0)) := rfl
      _ = .ok (.fin 0) := by rw [hsin]
  · calc evaluateExpression M "cos(0)" = .ok (M.cos (.fin 0)) := rfl
      _ = .ok (.fin 1) := by rw [hcos]
  · calc evaluateExpression M "sqrt(16)" = .ok (M.sqrt (.fin 16)) := rfl
      _ = .ok (.fin 4) := by rw [hsqrt]
  · calc evaluateExpression M "log(100)" = .ok (M.log10 (.fin 100)) := rfl
      _ = .ok (.fin 2) := by rw [hlog]
  · calc evaluateExpression M "ln(1)" = .ok (M.ln (.fin 1)) := rfl
      _ = .ok (.fin 0) := by rw [hln]

/-- Witness for C9: all five hypotheses and conclusions hold at the reference
`Math` instance. -/
theorem unary_function_evaluation_witness :
    refMath.sin (.fin 0) = .fin 0 ∧ refMath.cos (.fin 0) = .fin 1 ∧
    refMath.sqrt (.fin 16) = .fin 4 ∧ refMath.log10 (.fin 100) = .fin 2 ∧
    refMath.ln (.fin 1) = .fin 0 ∧
    (evaluateExpression refMath "sin(0)" = .ok (.fin 0) ∧
      evaluateExpression refMath "cos(0)" = .ok (.fin 1) ∧
      evaluateExpression refMath "sqrt(16)" = .ok (.fin 4) ∧
      evaluateExpression refMath "log(100)" = .ok (.fin 2) ∧
      evaluateExpression refMath "ln(1)" = .ok (.fin 0)) :=
  ⟨by decide, by decide, by decide, by decide, by decide,
    unary_function_evaluation refMath (by decide) (by decide) (by decide)
      (by decide) (by decide)⟩

unseal Rat.add Rat.mul Rat.sub Rat.inv in
/-- C10: constant recognition is case-sensitive while function-name
recognition is not, because constant substitution runs before lowercasing in
the same normalization pass: `"pi"`, `"PI"` and `"π"` evaluate to the decimal
value of `Math.PI` and `"e"` to that of `Math.E`, while `"Pi"`, `"pI"` and
`"E"` are lowercased and reach evaluation as the unparseable tokens
`pi` / `e`, raising the fatal error; mixed-case function names such as
`"SIN(0)"` do work. -/
theorem constant_case_sensitivity (M : MathLib) (hsin : M.sin (.fin 0) = .fin 0) :
    evaluateExpression M "pi" = .ok (.fin (parseFloatTok piTok)) ∧
    evaluateExpression M "PI" = .ok (.fin (parseFloatTok piTok)) ∧
    evaluateExpression M "π" = .ok (.fin (parseFloatTok piTok)) ∧
    evaluateExpression M "e" = .ok (.fin (parseFloatTok eTok)) ∧
    evaluateExpression M "Pi" = .error "Invalid expression token: pi" ∧
    evaluateExpression M "pI" = .error "Invalid expression token: pi" ∧
    evaluateExpression M "E" = .error "Invalid expression token: e" ∧
    evaluateExpression M "SIN(0)" = .ok (.fin 0) := by
  refine ⟨rfl, rfl, rfl, rfl, rfl, rfl, rfl, ?_⟩
  calc evaluateExpression M "SIN(0)" = .ok (M.sin (.fin 0)) := rfl
    _ = .ok (.fin 0) := by rw [hsin]

/-- Witness for C10 at the reference `Math` instance. -/
theorem constant_case_sensitivity_witness :
    refMath.sin (.fin 0) = .fin 0 ∧
    (evaluateExpression refMath "pi" = .ok (.fin (parseFloatTok piTok)) ∧
      evaluateExpression refMath "PI" = .ok (.fin (parseFloatTok piTok)) ∧
      evaluateExpression refMath "π" = .ok (.fin (parseFloatTok piTok)) ∧
      evaluateExpression refMath "e" = .ok (.fin (parseFloatTok eTok)) ∧
      evaluateExpression refMath "Pi" = .error "Invalid expression token: pi" ∧
      evaluateExpression refMath "pI" = .error "Invalid expression token: pi" ∧
      evaluateExpression refMath "E" = .error "Invalid expression token: e" ∧
      evaluateExpression refMath "SIN(0)" = .ok (.fin 0)) :=
  ⟨by decide, constant_case_sensitivity refMath (by decide)⟩

end CalcSpec
